import Mathlib

/-!
Verification of the XCResult-to-JUnit converter (`converter.go`).

The Go source is shallowly embedded below.  Machine floats (`float64`) are
modelled as exact rationals (`ℚ`): every duration value exercised here is a
short decimal literal, and none of the verified properties depends on
binary-rounding artifacts.  Go strings are modelled as Lean `String`s; Go
compares strings byte-wise over UTF-8, which coincides with the
code-point-wise comparison used here on valid UTF-8 data.  Go's
`map[string]*JUnitTestSuite` is modelled as an association list of suites
keyed by their (unique) `name` field; the unspecified iteration order of a Go
map is accounted for by quantifying over permutations where it matters.
`time.Now().Format(time.RFC3339)` is modelled by an ambient timestamp
parameter `ts` threaded through the functions that read the clock.
-/

mutual
/-- A node of the XCResult JSON tree (`TestNode` in converter.go).  The
`summaryRef`/`activitySummaries` fields of the Go struct are never read by
the conversion logic and are omitted.  `children` is a bespoke list type so
that all functions below are structurally recursive over the mutual
inductive family (and hence evaluate by kernel reduction). -/
inductive TestNode where
  | mk (children : NodeList) (name nodeType duration result nodeIdentifier : String)
inductive NodeList where
  | nil
  | cons (head : TestNode) (tail : NodeList)
end

def TestNode.children : TestNode → NodeList
  | .mk c _ _ _ _ _ => c

def TestNode.name : TestNode → String
  | .mk _ n _ _ _ _ => n

def TestNode.nodeType : TestNode → String
  | .mk _ _ t _ _ _ => t

def TestNode.duration : TestNode → String
  | .mk _ _ _ d _ _ => d

def TestNode.result : TestNode → String
  | .mk _ _ _ _ r _ => r

def TestNode.nodeIdentifier : TestNode → String
  | .mk _ _ _ _ _ i => i

/-- Conversion of the bespoke child list to an ordinary `List`, used only in
statements (hypotheses over the children of concrete nodes). -/
def NodeList.toList : NodeList → List TestNode
  | .nil => []
  | .cons h t => h :: t.toList

/-- Builds a `NodeList` from a `List`, used to state theorems over ordinary
lists of nodes. -/
def NodeList.ofList : List TestNode → NodeList
  | [] => .nil
  | h :: t => .cons h (NodeList.ofList t)

/-- `JUnitFailure` (converter.go): message attribute, type attribute and
character data of a `<failure>` element. -/
structure JUnitFailure where
  message : String
  type : String
  content : String
  deriving Repr, DecidableEq

/-- `JUnitSkipped` (converter.go): the `<skipped>` element.  The converter
defines it but never constructs it. -/
structure JUnitSkipped where
  message : String
  deriving Repr, DecidableEq

/-- `JUnitTestCase` (converter.go).  `time` is the `float64` attribute,
modelled as `ℚ`. -/
structure JUnitTestCase where
  name : String
  classname : String
  time : ℚ
  failure : Option JUnitFailure
  skipped : Option JUnitSkipped
  deriving Repr, DecidableEq

/-- `JUnitTestSuite` (converter.go).  `tests`, `failures` and `errors` are Go
`int`s that only ever hold non-negative counts, modelled as `ℕ`. -/
structure JUnitTestSuite where
  name : String
  tests : Nat
  failures : Nat
  errors : Nat
  time : ℚ
  timestamp : String
  testCases : List JUnitTestCase
  deriving Repr, DecidableEq

/-- The `suiteMap` of `ConvertXCResultJSONToJUnitXML`: a
`map[string]*JUnitTestSuite` modelled as a list of suites looked up by their
`name` field (the Go code always stores a suite under the key equal to its
`Name`, so the key is kept inside the record). -/
abbrev SuiteMap := List JUnitTestSuite

/-- Go `strings.TrimSuffix`: drops `suffix` when `s` ends with it. -/
def trimSuffix (s suffix : String) : String :=
  if s.data.reverse.take suffix.data.length = suffix.data.reverse then
    ⟨s.data.take (s.data.length - suffix.data.length)⟩
  else s

/-- Decimal value of a digit list (most significant first). -/
def digitsVal (cs : List Char) : Nat :=
  cs.foldl (fun a c => a * 10 + (c.toNat - 48)) 0

/-- Go `strconv.ParseFloat` (converter.go only ever feeds it duration
strings).  Modelled with exact rational semantics of the decimal notation:
optional sign, decimal digits with an optional fractional part (at least one
digit overall), and an optional decimal exponent.  `none` models the error
case, in which Go also returns the value `0` that the converter then uses.
The `Inf`/`NaN`/hexadecimal/underscore spellings accepted by Go cannot occur
in xcresult durations and are modelled as parse failures; binary rounding of
the result is not modelled (see the header comment). -/
def goParseFloat (s : String) : Option ℚ :=
  let cs := s.data
  let sign : Int × List Char :=
    match cs with
    | '+' :: r => (1, r)
    | '-' :: r => (-1, r)
    | _ => (1, cs)
  let intDigits := sign.2.takeWhile Char.isDigit
  let afterInt := sign.2.dropWhile Char.isDigit
  let frac : List Char × List Char :=
    match afterInt with
    | '.' :: r => (r.takeWhile Char.isDigit, r.dropWhile Char.isDigit)
    | _ => ([], afterInt)
  if intDigits = [] ∧ frac.1 = [] then none
  else
    let mantissa : Int := sign.1 * (digitsVal intDigits * 10 ^ frac.1.length + digitsVal frac.1)
    match frac.2 with
    | [] => some (mkRat mantissa (10 ^ frac.1.length))
    | e :: r =>
      if e = 'e' ∨ e = 'E' then
        let esign : Bool × List Char :=
          match r with
          | '+' :: t => (false, t)
          | '-' :: t => (true, t)
          | _ => (false, r)
        let eDigits := esign.2.takeWhile Char.isDigit
        let eRest := esign.2.dropWhile Char.isDigit
        if eDigits = [] ∨ eRest ≠ [] then none
        else if esign.1 then
          some (mkRat mantissa (10 ^ frac.1.length * 10 ^ digitsVal eDigits))
        else
          some (mkRat (mantissa * 10 ^ digitsVal eDigits) (10 ^ frac.1.length))
      else none

/-- `parseDuration` (converter.go): strips a trailing `"s"` and parses the
rest as a float, returning `0` for the empty string; a parse error is ignored
and Go's error-case value `0` is used. -/
def parseDuration (dur : String) : ℚ :=
  let dur := trimSuffix dur "s"
  if dur = "" then 0
  else (goParseFloat dur).getD 0

mutual
/-- `extractFailureMessage` (converter.go) together with its loop body
(`extractFromChildren`): for each child, a direct failure-message child
returns its name; otherwise the child's subtree is searched recursively and a
result is accepted only when it differs from the fallback string
`"Test failed"`. -/
def extractFailureMessage : TestNode → String
  | .mk children _ _ _ _ _ => extractFromChildren children

def extractFromChildren : NodeList → String
  | .nil => "Test failed"
  | .cons child rest =>
    if child.nodeType = "Failure Message" then child.name
    else
      let message := extractFailureMessage child
      if message ≠ "Test failed" then message
      else extractFromChildren rest
end

/-- `buildClassName` (converter.go). -/
def buildClassName (current newPart : String) : String :=
  if current = "" then newPart else current ++ "." ++ newPart

/-- Containment of a single character in a character list. -/
def containsChar (c : Char) : List Char → Bool
  | [] => false
  | x :: rest => x = c || containsChar c rest

/-- Go `strings.Contains(s, "/")` for the single-character separator. -/
def containsSlash (s : String) : Bool :=
  containsChar '/' s.data

/-- Go `strings.Split(s, "/")` on a character list. -/
def splitOnChar (sep : Char) : List Char → List (List Char)
  | [] => [[]]
  | c :: rest =>
    match splitOnChar sep rest with
    | [] => [[]]
    | g :: gs => if c = sep then [] :: g :: gs else (c :: g) :: gs

/-- Go `strings.Split(s, "/")`. -/
def splitSlash (s : String) : List String :=
  (splitOnChar '/' s.data).map fun l => ⟨l⟩

/-- The suite name derived in `processTestCase` (converter.go, lines
183–186): first `/`-separated segment of the identifier, with the
`"UnknownSuite"` fallback for an empty first segment. -/
def suiteNameOf (nodeIdentifier : String) : String :=
  let s := (splitSlash nodeIdentifier).headD ""
  if s = "" then "UnknownSuite" else s

/-- The `JUnitTestCase` literal built in `processTestCase` (converter.go,
lines 202–216), including the conditional failure attachment. -/
def makeTestCase (node : TestNode) (classname : String) : JUnitTestCase :=
  if node.result = "Failed" then
    let failureMessage := extractFailureMessage node
    { name := node.name, classname := classname, time := parseDuration node.duration,
      failure := some { message := failureMessage, type := "Failure", content := failureMessage },
      skipped := none }
  else
    { name := node.name, classname := classname, time := parseDuration node.duration,
      failure := none, skipped := none }

/-- The fresh suite created on first lookup of a suite name
(`processTestCase`, lines 190–196). -/
def newSuite (name ts : String) : JUnitTestSuite :=
  { name := name, tests := 0, failures := 0, errors := 0, time := 0,
    timestamp := ts, testCases := [] }

/-- The mutation performed on the (possibly fresh) suite: increment the
failure counter when the case failed, then append the case. -/
def appendCase (suite : JUnitTestSuite) (tc : JUnitTestCase) (failed : Bool) : JUnitTestSuite :=
  { suite with
    failures := suite.failures + (if failed then 1 else 0),
    testCases := suite.testCases ++ [tc] }

/-- Lookup-or-create on the suite map followed by `appendCase`, modelling
`suiteMap[suiteName]` handling in `processTestCase`. -/
def updateSuiteMap (ts suiteName : String) (tc : JUnitTestCase) (failed : Bool) :
    SuiteMap → SuiteMap
  | [] => [appendCase (newSuite suiteName ts) tc failed]
  | s :: rest =>
    if s.name = suiteName then appendCase s tc failed :: rest
    else s :: updateSuiteMap ts suiteName tc failed rest

/-- `processTestCase` (converter.go): skip identifiers without a `/`
separator, otherwise derive the suite name and record the case. -/
def processTestCase (ts : String) (node : TestNode) (classname : String)
    (suiteMap : SuiteMap) : SuiteMap :=
  if containsSlash node.nodeIdentifier = false then suiteMap
  else if (splitSlash node.nodeIdentifier).length < 2 then suiteMap
  else
    updateSuiteMap ts (suiteNameOf node.nodeIdentifier) (makeTestCase node classname)
      (node.result = "Failed") suiteMap

/-- `processTestNodes` (converter.go): node-kind dispatch over the forest,
threading the classname prefix and the suite map. -/
def processTestNodes (ts : String) : NodeList → String → SuiteMap → SuiteMap
  | .nil, _, suiteMap => suiteMap
  | .cons (.mk children name nodeType duration result nodeIdentifier) rest, classname, suiteMap =>
    let suiteMap' :=
      if nodeType = "Unit test bundle" ∨ nodeType = "UI test bundle" ∨ nodeType = "Test Suite" then
        processTestNodes ts children (buildClassName classname name) suiteMap
      else if nodeType = "Test Case" then
        processTestCase ts (.mk children name nodeType duration result nodeIdentifier)
          classname suiteMap
      else if nodeType = "Test Plan" ∨ nodeType = "Test Plan Configuration" then
        processTestNodes ts children classname suiteMap
      else suiteMap
    processTestNodes ts rest classname suiteMap'

/-- `totalSuiteTime` (converter.go). -/
def totalSuiteTime (cases : List JUnitTestCase) : ℚ :=
  cases.foldl (fun total tc => total + tc.time) 0

/-- The per-suite aggregation in `ConvertXCResultJSONToJUnitXML` (lines
123–127): set `Tests` and `Time` from the accumulated cases. -/
def finalizeSuite (s : JUnitTestSuite) : JUnitTestSuite :=
  { s with tests := s.testCases.length, time := totalSuiteTime s.testCases }

/-- Byte-wise `≤` on strings, modelling how Go's `<` on strings orders the
suite and case names (code-point order, which agrees with byte order on
UTF-8). -/
def charListLe : List Char → List Char → Bool
  | [], _ => true
  | _ :: _, [] => false
  | a :: as, b :: bs =>
    if a.toNat < b.toNat then true
    else if b.toNat < a.toNat then false
    else charListLe as bs

def stringLe (a b : String) : Bool := charListLe a.data b.data

/-- Ordering relation used for `sort.Slice` over suites (converter.go, line
265: `suites[i].Name < suites[j].Name`).  Go's `sort.Slice` guarantees only
that the result is sorted for the comparator; it is modelled by insertion
sort, one such sorted rearrangement. -/
abbrev suiteLe (a b : JUnitTestSuite) : Prop := stringLe a.name b.name = true

/-- Ordering relation for `sort.Slice` over cases (converter.go, line 271). -/
abbrev caseLe (a b : JUnitTestCase) : Prop := stringLe a.name b.name = true

/-- `sortTestSuites` (converter.go): sort suites by name, then the cases of
every suite by name. -/
def sortTestSuites (suites : List JUnitTestSuite) : List JUnitTestSuite :=
  (List.insertionSort suiteLe suites).map fun s =>
    { s with testCases := List.insertionSort caseLe s.testCases }

/-- The default suite appended when no suites were produced
(`ConvertXCResultJSONToJUnitXML`, lines 133–142). -/
def defaultSuite (ts : String) : JUnitTestSuite :=
  { name := "XCTest", tests := 0, failures := 0, errors := 0, time := 0,
    timestamp := ts, testCases := [] }

/-- The assembler half of `ConvertXCResultJSONToJUnitXML` (lines 122–142):
aggregate, sort, and fall back to the default suite. -/
def assembleReport (ts : String) (suiteMap : SuiteMap) : List JUnitTestSuite :=
  let suites := sortTestSuites (suiteMap.map finalizeSuite)
  if suites.isEmpty then [defaultSuite ts] else suites

/-- The whole conversion (minus JSON decoding and XML byte emission):
flatten the forest, then assemble. -/
def convertTree (ts : String) (roots : NodeList) : List JUnitTestSuite :=
  assembleReport ts (processTestNodes ts roots "" [])

/-- Decimal rendering of a non-negative Go `int` (fuel-based so that it
reduces by kernel computation; the fuel `n + 1` always suffices). -/
def natReprAux : Nat → Nat → List Char
  | 0, _ => []
  | fuel + 1, n =>
    if n < 10 then [Char.ofNat (48 + n)]
    else natReprAux fuel (n / 10) ++ [Char.ofNat (48 + n % 10)]

def natRepr (n : Nat) : String :=
  ⟨natReprAux (n + 1) n⟩

/-- Character escaping of Go `encoding/xml` (`EscapeText`, applied by the
marshaller to attribute values and character data alike). -/
def escChar : Char → List Char
  | '"' => "&#34;".data
  | '\'' => "&#39;".data
  | '&' => "&amp;".data
  | '<' => "&lt;".data
  | '>' => "&gt;".data
  | '\t' => "&#x9;".data
  | '\n' => "&#xA;".data
  | '\r' => "&#xD;".data
  | c => [c]

def escapeXml (s : String) : String :=
  ⟨s.data.foldr (fun c acc => escChar c ++ acc) []⟩

/-- One XML attribute, `encoding/xml` style. -/
def xmlAttr (name value : String) : String :=
  " " ++ name ++ "=\"" ++ escapeXml value ++ "\""

/-- `<failure>` element as marshalled from `JUnitFailure`. -/
def renderFailure (f : JUnitFailure) : String :=
  "<failure" ++ xmlAttr "message" f.message ++ xmlAttr "type" f.type ++ ">" ++
    escapeXml f.content ++ "</failure>"

/-- `<skipped>` element as marshalled from `JUnitSkipped` (never produced by
the converter, rendered here for completeness of the output model). -/
def renderSkipped (sk : JUnitSkipped) : String :=
  "<skipped" ++ xmlAttr "message" sk.message ++ "></skipped>"

/-- `<testcase>` element at `MarshalIndent("", "  ")` nesting depth 2.
`showQ` renders the `float64` attributes (Go uses `strconv.FormatFloat`;
its exact digit string is irrelevant to the claims, so the formatter is a
parameter of the serializer). -/
def renderTestCase (showQ : ℚ → String) (tc : JUnitTestCase) : String :=
  "    <testcase" ++ xmlAttr "name" tc.name ++ xmlAttr "classname" tc.classname ++
    xmlAttr "time" (showQ tc.time) ++ ">" ++
    (match tc.failure with
     | none => ""
     | some f => "\n      " ++ renderFailure f ++ "\n    ") ++
    (match tc.skipped with
     | none => ""
     | some sk => "\n      " ++ renderSkipped sk ++ "\n    ") ++
    "</testcase>"

/-- `<testsuite>` element at nesting depth 1. -/
def renderSuite (showQ : ℚ → String) (s : JUnitTestSuite) : String :=
  "  <testsuite" ++ xmlAttr "name" s.name ++ xmlAttr "tests" (natRepr s.tests) ++
    xmlAttr "failures" (natRepr s.failures) ++ xmlAttr "errors" (natRepr s.errors) ++
    xmlAttr "time" (showQ s.time) ++ xmlAttr "timestamp" s.timestamp ++ ">" ++
    s.testCases.foldl (fun acc tc => acc ++ "\n" ++ renderTestCase showQ tc) "" ++
    (if s.testCases.isEmpty then "" else "\n  ") ++ "</testsuite>"

/-- The serialized document: `xml.Header` followed by the indented
`<testsuites>` element (`ConvertXCResultJSONToJUnitXML`, lines 144–149). -/
def renderReport (showQ : ℚ → String) (suites : List JUnitTestSuite) : String :=
  "<?xml version=\"1.0\" encoding=\"UTF-8\"?>\n<testsuites>" ++
    suites.foldl (fun acc s => acc ++ "\n" ++ renderSuite showQ s) "" ++
    "\n</testsuites>"

mutual
/-- Spec-side definition (claim C1 wording): the display names of all
failure-message-kind nodes of a subtree in depth-first pre-order.  The head
of this list is "the first failure-message-kind node found by a depth-first
search of the node's descendants". -/
def fmNamesNode : TestNode → List String
  | .mk children n t _ _ _ =>
    (if t = "Failure Message" then [n] else []) ++ fmNamesList children

def fmNamesList : NodeList → List String
  | .nil => []
  | .cons child rest => fmNamesNode child ++ fmNamesList rest
end

/-- Spec-side definition (claim C6 wording): display names joined with `"."`
(no leading separator). -/
def specJoinDot : List String → String
  | [] => ""
  | [n] => n
  | n :: m :: rest => n ++ "." ++ specJoinDot (m :: rest)

/-- The container kinds of the dispatch in `processTestNodes` (line 155):
they extend the classname prefix. -/
def isContainerKind (t : String) : Bool :=
  t = "Unit test bundle" || t = "UI test bundle" || t = "Test Suite"

/-- The transparent kinds of the dispatch (line 162): they recurse with an
unchanged prefix. -/
def isTransparentKind (t : String) : Bool :=
  t = "Test Plan" || t = "Test Plan Configuration"

/-- Builds the tree in which `leaf` sits below the given chain of ancestor
nodes (each ancestor keeping its own attributes, its children replaced by the
next link of the chain). -/
def nestChain : List TestNode → TestNode → TestNode
  | [], leaf => leaf
  | a :: rest, leaf =>
    .mk (.cons (nestChain rest leaf) .nil) a.name a.nodeType a.duration a.result
      a.nodeIdentifier

/-- Whether the traversal of `processTestNodes` reaches at least one
test-case node that passes the `/`-separator eligibility test of
`processTestCase`. -/
def hasEligibleCases : NodeList → Bool
  | .nil => false
  | .cons (.mk children _ nodeType _ _ nodeIdentifier) rest =>
    (if isContainerKind nodeType || isTransparentKind nodeType then hasEligibleCases children
     else if nodeType = "Test Case" then containsSlash nodeIdentifier
     else false) ||
    hasEligibleCases rest

/-- The invariant of claim C10 on a suite map: no accumulated case carries a
skipped marker. -/
def NoSkipped (m : SuiteMap) : Prop :=
  ∀ s ∈ m, ∀ c ∈ s.testCases, c.skipped = none

/-- C1 counterexample input: the depth-first-first failure-message node (under
`cexWrap`) is named exactly `"Test failed"`, and a later sibling
failure-message node carries a different text. -/
def cexDeepFM : TestNode := .mk .nil "Test failed" "Failure Message" "" "" ""

def cexWrap : TestNode := .mk (.cons cexDeepFM .nil) "wrapper" "Test Suite" "" "" ""

def cexLateFM : TestNode := .mk .nil "Assertion failed: other cause" "Failure Message" "" "" ""

def cexNode : TestNode :=
  .mk (.cons cexWrap (.cons cexLateFM .nil)) "testCex" "Test Case" "0.5s" "Failed" "S/testCex"

/-- The failed test case of the specification's failure-extraction scenario:
a descendant failure-message node named
`"Test failed: expected true but got false"`. -/
def fmSpecNode : TestNode :=
  .mk .nil "Test failed: expected true but got false" "Failure Message" "" "" ""

def specFailedCase : TestNode :=
  .mk (.cons fmSpecNode .nil) "testExample" "Test Case" "0.5s" "Failed"
    "MyTestSuite/MyTestGroup/testExample"

/-- A passing test case used by the sample forest. -/
def samplePassCase : TestNode := .mk .nil "testB" "Test Case" "0.25s" "Passed" "SuiteB/testB"

/-- A small sample forest: one bundle holding a failed and a passing case in
two different suites. -/
def sampleRoots : NodeList :=
  .cons (.mk (.cons specFailedCase (.cons samplePassCase .nil)) "MyBundle" "Unit test bundle"
    "" "" "") .nil

/-- A test-case node whose identifier has no separator (a configuration
artifact), with a failed outcome. -/
def configCase : TestNode := .mk .nil "Configuration" "Test Case" "" "Failed" "Configuration"

/-- A forest whose only test-case node is ineligible. -/
def c3Roots : NodeList :=
  .cons (.mk (.cons configCase .nil) "Plan" "Test Plan" "" "" "") .nil

/-- Two eligible cases sharing the first identifier segment but reached under
different ancestor chains (hence different classnames). -/
def c5Node1 : TestNode := .mk .nil "testOne" "Test Case" "1s" "Failed" "SharedSuite/GroupA/testOne"

def c5Node2 : TestNode := .mk .nil "testTwo" "Test Case" "2s" "Passed" "SharedSuite/GroupB/testTwo"

/-- Ancestor chain of the specification's grouping scenario: two container
nodes with a transparent test-plan node between them. -/
def c6Anc : List TestNode :=
  [.mk .nil "MyTestSuite" "Unit test bundle" "" "" "",
   .mk .nil "" "Test Plan" "" "" "",
   .mk .nil "MyTestGroup" "Test Suite" "" "" ""]

def c6Leaf : TestNode :=
  .mk .nil "testExample" "Test Case" "0.5s" "Passed" "MyTestSuite/MyTestGroup/testExample"

/-- Two distinct-keyed suites for exercising assembly determinism. -/
def c9SuiteA : JUnitTestSuite :=
  { name := "Alpha", tests := 0, failures := 0, errors := 0, time := 0, timestamp := "T",
    testCases :=
      [{ name := "t2", classname := "c", time := 0, failure := none, skipped := none },
       { name := "t1", classname := "c", time := 0, failure := none, skipped := none }] }

def c9SuiteB : JUnitTestSuite :=
  { name := "Beta", tests := 0, failures := 0, errors := 0, time := 0, timestamp := "T",
    testCases := [] }

theorem charListLe_head_le {a b : Char} {as bs : List Char}
    (h : charListLe (a :: as) (b :: bs) = true) : a.toNat ≤ b.toNat := by
  simp only [charListLe] at h
  split at h
  · omega
  · split at h
    · exact absurd h (by simp)
    · omega

theorem charListLe_total : ∀ (a b : List Char), charListLe a b = true ∨ charListLe b a = true
  | [], _ => .inl rfl
  | _ :: _, [] => .inr rfl
  | a :: as, b :: bs => by
    rcases Nat.lt_trichotomy a.toNat b.toNat with h | h | h
    · left; simp [charListLe, h]
    · rcases charListLe_total as bs with ih | ih
      · left; simp [charListLe, h, ih]
      · right; simp [charListLe, h.symm, ih]
    · right; simp [charListLe, h]

theorem charListLe_trans :
    ∀ (a b c : List Char), charListLe a b = true → charListLe b c = true →
      charListLe a c = true
  | [], _, _, _, _ => rfl
  | _ :: _, [], _, h1, _ => by simp [charListLe] at h1
  | _ :: _, _ :: _, [], _, h2 => by simp [charListLe] at h2
  | a :: as, b :: bs, c :: cs, h1, h2 => by
    have k1 : a.toNat ≤ b.toNat := charListLe_head_le h1
    have k2 : b.toNat ≤ c.toNat := charListLe_head_le h2
    by_cases hac : a.toNat < c.toNat
    · simp [charListLe, hac]
    · have e1 : a.toNat = b.toNat := by omega
      have e2 : b.toNat = c.toNat := by omega
      have e3 : a.toNat = c.toNat := by omega
      simp only [charListLe, e1, lt_self_iff_false, if_false] at h1
      simp only [charListLe, e2, lt_self_iff_false, if_false] at h2
      simp only [charListLe, e3, lt_self_iff_false, if_false]
      exact charListLe_trans as bs cs h1 h2

theorem charListLe_antisymm :
    ∀ (a b : List Char), charListLe a b = true → charListLe b a = true → a = b
  | [], [], _, _ => rfl
  | [], _ :: _, _, h2 => by simp [charListLe] at h2
  | _ :: _, [], h1, _ => by simp [charListLe] at h1
  | a :: as, b :: bs, h1, h2 => by
    have k1 : a.toNat ≤ b.toNat := charListLe_head_le h1
    have k2 : b.toNat ≤ a.toNat := charListLe_head_le h2
    have e : a.toNat = b.toNat := by omega
    have hab : a = b := Char.eq_of_val_eq (UInt32.eq_of_toBitVec_eq (BitVec.eq_of_toNat_eq e))
    subst hab
    simp only [charListLe, lt_self_iff_false, if_false] at h1 h2
    exact congrArg (a :: ·) (charListLe_antisymm as bs h1 h2)

theorem stringLe_total (a b : String) : stringLe a b = true ∨ stringLe b a = true :=
  charListLe_total a.data b.data

theorem stringLe_trans {a b c : String} (h1 : stringLe a b = true) (h2 : stringLe b c = true) :
    stringLe a c = true :=
  charListLe_trans a.data b.data c.data h1 h2

theorem stringLe_antisymm {a b : String} (h1 : stringLe a b = true) (h2 : stringLe b a = true) :
    a = b := by
  cases a; cases b
  exact congrArg String.mk (charListLe_antisymm _ _ h1 h2)

instance : IsTotal JUnitTestSuite suiteLe := ⟨fun a b => stringLe_total a.name b.name⟩

instance : IsTrans JUnitTestSuite suiteLe := ⟨fun _ _ _ => stringLe_trans⟩

instance : IsTotal JUnitTestCase caseLe := ⟨fun a b => stringLe_total a.name b.name⟩

instance : IsTrans JUnitTestCase caseLe := ⟨fun _ _ _ => stringLe_trans⟩

/-- Strict-by-key ordering on suites: `≤` on names together with distinct
names.  Antisymmetric (vacuously), which pins down the sorted arrangement of
a key-unique suite map. -/
def suiteLtKey (a b : JUnitTestSuite) : Prop := suiteLe a b ∧ a.name ≠ b.name

instance : IsAntisymm JUnitTestSuite suiteLtKey :=
  ⟨fun _ _ h1 h2 => absurd (stringLe_antisymm h1.1 h2.1) h1.2⟩

theorem splitOnChar_ne_nil (sep : Char) : ∀ cs : List Char, splitOnChar sep cs ≠ []
  | [] => by simp [splitOnChar]
  | c :: rest => by
    simp only [splitOnChar]
    split
    · simp
    · split <;> simp

theorem length_splitOnChar_of_contains (sep : Char) :
    ∀ cs : List Char, containsChar sep cs = true → 2 ≤ (splitOnChar sep cs).length
  | [], h => by simp [containsChar] at h
  | c :: rest, h => by
    simp only [splitOnChar]
    rcases hc : splitOnChar sep rest with _ | ⟨g, gs⟩
    · exact absurd hc (splitOnChar_ne_nil sep rest)
    · by_cases hcs : c = sep
      · simp [hcs]
      · have hr : containsChar sep rest = true := by
          simp only [containsChar, Bool.or_eq_true, decide_eq_true_eq] at h
          rcases h with h | h
          · exact absurd h hcs
          · exact h
        have h2 := length_splitOnChar_of_contains sep rest hr
        rw [hc] at h2
        simp only [List.length_cons] at h2
        simp [hcs]
        omega

theorem two_le_splitSlash_length {s : String} (h : containsSlash s = true) :
    2 ≤ (splitSlash s).length := by
  have h2 := length_splitOnChar_of_contains '/' s.data h
  simpa [splitSlash] using h2

/-- `processTestCase` on an ineligible identifier (no `/` separator) is the
identity on the suite map. -/
theorem processTestCase_skip {node : TestNode} (h : containsSlash node.nodeIdentifier = false)
    (ts cn : String) (m : SuiteMap) : processTestCase ts node cn m = m := by
  unfold processTestCase
  rw [h]
  simp

/-- `processTestCase` on an eligible identifier performs the keyed update. -/
theorem processTestCase_eligible {node : TestNode} (h : containsSlash node.nodeIdentifier = true)
    (ts cn : String) (m : SuiteMap) :
    processTestCase ts node cn m =
      updateSuiteMap ts (suiteNameOf node.nodeIdentifier) (makeTestCase node cn)
        (node.result = "Failed") m := by
  unfold processTestCase
  rw [h]
  have h2 := two_le_splitSlash_length h
  have h3 : ¬ (splitSlash node.nodeIdentifier).length < 2 := by omega
  simp [h3]

theorem foldl_time_eq (cs : List JUnitTestCase) :
    ∀ a : ℚ, cs.foldl (fun total tc => total + tc.time) a = a + (cs.map JUnitTestCase.time).sum := by
  induction cs with
  | nil => intro a; simp
  | cons c cst ih => intro a; simp [ih, add_assoc]

theorem totalSuiteTime_eq_sum (cs : List JUnitTestCase) :
    totalSuiteTime cs = (cs.map JUnitTestCase.time).sum := by
  simpa [totalSuiteTime] using foldl_time_eq cs 0

theorem totalSuiteTime_perm {cs₁ cs₂ : List JUnitTestCase} (h : cs₁.Perm cs₂) :
    totalSuiteTime cs₁ = totalSuiteTime cs₂ := by
  rw [totalSuiteTime_eq_sum, totalSuiteTime_eq_sum]
  exact (h.map JUnitTestCase.time).sum_eq

theorem appendCase_name (s : JUnitTestSuite) (tc : JUnitTestCase) (b : Bool) :
    (appendCase s tc b).name = s.name := rfl

theorem updateSuiteMap_map_name (ts sn : String) (tc : JUnitTestCase) (b : Bool) :
    ∀ m : SuiteMap,
      (updateSuiteMap ts sn tc b m).map JUnitTestSuite.name =
        if sn ∈ m.map JUnitTestSuite.name then m.map JUnitTestSuite.name
        else m.map JUnitTestSuite.name ++ [sn]
  | [] => by simp [updateSuiteMap, appendCase, newSuite]
  | s :: rest => by
    by_cases h : s.name = sn
    · simp [updateSuiteMap, h, appendCase]
    · have ih := updateSuiteMap_map_name ts sn tc b rest
      have hne : ¬ sn = s.name := fun hcontra => h hcontra.symm
      by_cases h2 : sn ∈ rest.map JUnitTestSuite.name
      · simp [updateSuiteMap, h, ih, h2, hne, appendCase]
      · simp [updateSuiteMap, h, ih, h2, hne, appendCase]

theorem makeTestCase_skipped (node : TestNode) (cn : String) :
    (makeTestCase node cn).skipped = none := by
  unfold makeTestCase
  split <;> rfl

theorem updateSuiteMap_noSkipped (ts sn : String) {tc : JUnitTestCase} (b : Bool)
    (htc : tc.skipped = none) :
    ∀ m : SuiteMap, NoSkipped m → NoSkipped (updateSuiteMap ts sn tc b m) := by
  intro m
  induction m with
  | nil =>
    intro _ s hs c hc
    simp only [updateSuiteMap, List.mem_singleton] at hs
    subst hs
    simp only [appendCase, newSuite, List.nil_append, List.mem_singleton] at hc
    subst hc
    exact htc
  | cons s' rest ih =>
    intro hm s hs c hc
    simp only [updateSuiteMap] at hs
    split at hs
    · rcases List.mem_cons.mp hs with rfl | hs2
      · rcases (by simpa [appendCase] using hc : c ∈ s'.testCases ∨ c = tc) with h1 | h1
        · exact hm s' (List.mem_cons_self _ _) c h1
        · rw [h1]
          exact htc
      · exact hm s (List.mem_cons_of_mem _ hs2) c hc
    · rcases List.mem_cons.mp hs with rfl | hs2
      · exact hm s (List.mem_cons_self _ _) c hc
      · exact ih (fun x hx => hm x (List.mem_cons_of_mem _ hx)) s hs2 c hc

theorem processTestCase_noSkipped (ts : String) (node : TestNode) (cn : String)
    (m : SuiteMap) (hm : NoSkipped m) : NoSkipped (processTestCase ts node cn m) := by
  rcases h : containsSlash node.nodeIdentifier with _ | _
  · rw [processTestCase_skip h]
    exact hm
  · rw [processTestCase_eligible h]
    exact updateSuiteMap_noSkipped ts _ _ (makeTestCase_skipped node cn) m hm

theorem processTestNodes_noSkipped (ts : String) :
    ∀ (l : NodeList) (cn : String) (m : SuiteMap), NoSkipped m →
      NoSkipped (processTestNodes ts l cn m)
  | .nil, _, _, hm => hm
  | .cons (.mk children name nodeType duration result nodeIdentifier) rest, cn, m, hm => by
    simp only [processTestNodes]
    apply processTestNodes_noSkipped ts rest cn
    split
    · exact processTestNodes_noSkipped ts children _ m hm
    · split
      · exact processTestCase_noSkipped ts _ cn m hm
      · split
        · exact processTestNodes_noSkipped ts children cn m hm
        · exact hm

theorem processTestNodes_no_eligible (ts : String) :
    ∀ (l : NodeList) (cn : String) (m : SuiteMap), hasEligibleCases l = false →
      processTestNodes ts l cn m = m
  | .nil, _, _, _ => rfl
  | .cons (.mk children name nodeType duration result nodeIdentifier) rest, cn, m, h => by
    simp only [hasEligibleCases, Bool.or_eq_false_iff] at h
    obtain ⟨h1, h2⟩ := h
    simp only [processTestNodes]
    by_cases hc : nodeType = "Unit test bundle" ∨ nodeType = "UI test bundle" ∨
        nodeType = "Test Suite"
    · have hck : (isContainerKind nodeType || isTransparentKind nodeType) = true := by
        rcases hc with h | h | h <;> simp [isContainerKind, isTransparentKind, h]
      rw [hck] at h1
      simp only [if_true] at h1
      rw [if_pos hc, processTestNodes_no_eligible ts children _ m h1,
        processTestNodes_no_eligible ts rest cn m h2]
    · by_cases htc : nodeType = "Test Case"
      · subst htc
        simp only [isContainerKind, isTransparentKind] at h1
        norm_num at h1
        rw [if_neg hc, if_pos rfl,
          @processTestCase_skip
            (TestNode.mk children name "Test Case" duration result nodeIdentifier) h1 ts cn m,
          processTestNodes_no_eligible ts rest cn m h2]
      · by_cases htp : nodeType = "Test Plan" ∨ nodeType = "Test Plan Configuration"
        · have hck : (isContainerKind nodeType || isTransparentKind nodeType) = true := by
            rcases htp with h | h <;> simp [isContainerKind, isTransparentKind, h]
          rw [hck] at h1
          simp only [if_true] at h1
          rw [if_neg hc, if_neg htc, if_pos htp,
            processTestNodes_no_eligible ts children cn m h1,
            processTestNodes_no_eligible ts rest cn m h2]
        · rw [if_neg hc, if_neg htc, if_neg htp,
            processTestNodes_no_eligible ts rest cn m h2]

/-- When no failure-message descendant is named exactly `"Test failed"`, the
sentinel-based search of the source coincides with the plain depth-first
first-match search described by the specification. -/
theorem extractFromChildren_eq_dfs :
    ∀ l : NodeList, "Test failed" ∉ fmNamesList l →
      extractFromChildren l = (fmNamesList l).headD "Test failed"
  | .nil, _ => rfl
  | .cons (.mk children cname ctype cdur cres cid) rest, h => by
    have hsplit : "Test failed" ∉ fmNamesNode (.mk children cname ctype cdur cres cid) ∧
        "Test failed" ∉ fmNamesList rest := by
      constructor <;> intro hmem <;>
        exact h (by simp only [fmNamesList, List.mem_append] ; first
          | exact .inl hmem
          | exact .inr hmem)
    obtain ⟨hnode, hrest⟩ := hsplit
    by_cases ht : ctype = "Failure Message"
    · have hn : fmNamesNode (.mk children cname ctype cdur cres cid) =
          cname :: fmNamesList children := by
        simp [fmNamesNode, ht]
      simp only [extractFromChildren, TestNode.nodeType, TestNode.name, if_pos ht,
        fmNamesList, hn]
      rfl
    · have hchild : "Test failed" ∉ fmNamesList children := by
        intro hmem
        exact hnode (by simp [fmNamesNode, ht, hmem])
      have ih := extractFromChildren_eq_dfs children hchild
      have hn : fmNamesNode (.mk children cname ctype cdur cres cid) =
          fmNamesList children := by
        simp [fmNamesNode, ht]
      simp only [extractFromChildren, TestNode.nodeType, if_neg ht, extractFailureMessage]
      rcases hfm : fmNamesList children with _ | ⟨x, xs⟩
      · rw [hfm] at ih
        simp only [List.headD] at ih
        rw [ih]
        simp only [ne_eq, not_true_eq_false, if_false]
        rw [extractFromChildren_eq_dfs rest hrest]
        simp [fmNamesList, hn, hfm]
      · rw [hfm] at ih
        simp only [List.headD] at ih
        have hx : x ≠ "Test failed" := by
          intro hcontra
          apply hchild
          rw [hfm, hcontra]
          exact List.mem_cons_self _ _
        rw [ih]
        simp only [ne_eq, hx, not_false_eq_true, if_true]
        simp [fmNamesList, hn, hfm]

theorem foldl_buildClassName_of_ne {p : String} (hp : p ≠ "") :
    ∀ ns : List String, List.foldl buildClassName p ns = specJoinDot (p :: ns)
  | [] => by simp [specJoinDot]
  | n :: rest => by
    have hpn : p ++ "." ++ n ≠ "" := by
      intro hcontra
      have hlen := congrArg String.length hcontra
      simp only [String.length_append] at hlen
      have hdot : String.length "." = 1 := rfl
      have hnil : String.length "" = 0 := rfl
      omega
    rw [List.foldl_cons, show buildClassName p n = p ++ "." ++ n from by
      simp [buildClassName, hp]]
    rw [foldl_buildClassName_of_ne hpn rest]
    rcases rest with _ | ⟨r, rs⟩
    · simp [specJoinDot]
    · simp [specJoinDot, String.append_assoc]

theorem foldl_buildClassName_empty :
    ∀ ns : List String,
      List.foldl buildClassName "" ns = specJoinDot (ns.dropWhile fun n => n = "")
  | [] => rfl
  | n :: rest => by
    by_cases hn : n = ""
    · subst hn
      rw [List.foldl_cons, show buildClassName "" "" = "" from rfl,
        foldl_buildClassName_empty rest]
      simp [List.dropWhile]
    · rw [List.foldl_cons, show buildClassName "" n = n from by simp [buildClassName],
        foldl_buildClassName_of_ne hn rest]
      simp [List.dropWhile, hn]

theorem processTestNodes_chain (ts : String) (leaf : TestNode)
    (hleaf : leaf.nodeType = "Test Case") :
    ∀ (anc : List TestNode) (p : String) (m : SuiteMap),
      (∀ a ∈ anc, isContainerKind a.nodeType = true ∨ isTransparentKind a.nodeType = true) →
      processTestNodes ts (.cons (nestChain anc leaf) .nil) p m =
        processTestCase ts leaf
          (List.foldl buildClassName p
            ((anc.filter fun a => isContainerKind a.nodeType).map TestNode.name)) m
  | [], p, m, _ => by
    rcases leaf with ⟨children, name, nodeType, duration, result, nodeIdentifier⟩
    simp only [TestNode.nodeType] at hleaf
    subst hleaf
    simp only [nestChain, List.filter_nil, List.map_nil, List.foldl_nil]
    simp [processTestNodes]
  | a :: rest, p, m, hanc => by
    have hmem := hanc a (List.mem_cons_self _ _)
    have htail : ∀ x ∈ rest, isContainerKind x.nodeType = true ∨
        isTransparentKind x.nodeType = true :=
      fun x hx => hanc x (List.mem_cons_of_mem _ hx)
    rcases hmem with hco | htr
    · have hc : a.nodeType = "Unit test bundle" ∨ a.nodeType = "UI test bundle" ∨
          a.nodeType = "Test Suite" := by
        simp only [isContainerKind, Bool.or_eq_true, decide_eq_true_eq] at hco
        tauto
      simp only [nestChain, processTestNodes]
      rw [if_pos hc]
      rw [processTestNodes_chain ts leaf hleaf rest (buildClassName p a.name) m htail]
      congr 1
      simp only [List.filter_cons, hco, if_true, List.map_cons, List.foldl_cons]
    · have htp : a.nodeType = "Test Plan" ∨ a.nodeType = "Test Plan Configuration" := by
        simp only [isTransparentKind, Bool.or_eq_true, decide_eq_true_eq] at htr
        tauto
      have hfalse : isContainerKind a.nodeType = false := by
        rcases htp with h | h <;> simp [isContainerKind, h]
      have hnc : ¬ (a.nodeType = "Unit test bundle" ∨ a.nodeType = "UI test bundle" ∨
          a.nodeType = "Test Suite") := by
        intro hcontra
        rcases hcontra with h | h | h <;> simp [isContainerKind, h] at hfalse
      have hntc : ¬ a.nodeType = "Test Case" := by
        rcases htp with h | h <;> rw [h] <;> decide
      simp only [nestChain, processTestNodes]
      rw [if_neg hnc, if_neg hntc, if_pos htp]
      rw [processTestNodes_chain ts leaf hleaf rest p m htail]
      congr 1
      simp [List.filter_cons, hfalse]

theorem sortTestSuites_sorted (l : List JUnitTestSuite) :
    List.Sorted suiteLe (sortTestSuites l) := by
  unfold sortTestSuites
  exact List.Pairwise.map _ (fun a b hab => hab) (List.sorted_insertionSort suiteLe l)

theorem sortTestSuites_cases_sorted {s : JUnitTestSuite} {l : List JUnitTestSuite}
    (hs : s ∈ sortTestSuites l) : List.Sorted caseLe s.testCases := by
  unfold sortTestSuites at hs
  rcases List.mem_map.mp hs with ⟨x, _, rfl⟩
  exact List.sorted_insertionSort caseLe x.testCases

/-- C1 (counterexample to the claim as stated): on `cexNode` the depth-first
search of the spec finds first a failure-message node named exactly
`"Test failed"`, but the code attaches the text of a *later* failure-message
node, so the attached message differs from the display name of the first
failure-message node found depth-first. -/
theorem c1_counterexample :
    extractFailureMessage cexNode = "Assertion failed: other cause" ∧
    (fmNamesList cexNode.children).headD "Test failed" = "Test failed" ∧
    (makeTestCase cexNode "MyBundle").failure =
      some { message := "Assertion failed: other cause", type := "Failure",
             content := "Assertion failed: other cause" } ∧
    "Assertion failed: other cause" ≠ "Test failed" := by
  refine ⟨by decide, by decide, by decide, by decide⟩

/-- C1 (amended): provided no failure-message descendant is named exactly the
fallback text `"Test failed"`, the failure detail attached to a failed test
case carries (as both message and duplicated content) the display name of the
first failure-message node found by a depth-first search of the node's
descendants, and the constant `"Test failed"` when no failure-message node
exists in the subtree. -/
theorem c1_failure_message_dfs (node : TestNode) (cn : String)
    (hfm : "Test failed" ∉ fmNamesList node.children) :
    extractFailureMessage node = (fmNamesList node.children).headD "Test failed" ∧
    (node.result = "Failed" →
      (makeTestCase node cn).failure =
        some { message := (fmNamesList node.children).headD "Test failed",
               type := "Failure",
               content := (fmNamesList node.children).headD "Test failed" }) := by
  have hext : extractFailureMessage node = (fmNamesList node.children).headD "Test failed" := by
    rcases node with ⟨children, n, t, d, r, i⟩
    exact extractFromChildren_eq_dfs children hfm
  refine ⟨hext, fun hres => ?_⟩
  unfold makeTestCase
  rw [if_pos hres]
  simp [hext]

unseal Rat.add in
theorem c1_failure_message_dfs_witness :
    ("Test failed" ∉ fmNamesList specFailedCase.children) ∧
    extractFailureMessage specFailedCase = "Test failed: expected true but got false" ∧
    (makeTestCase specFailedCase "MyTestSuite.MyTestGroup").failure =
      some { message := "Test failed: expected true but got false", type := "Failure",
             content := "Test failed: expected true but got false" } := by
  refine ⟨by decide, ?_, ?_⟩
  · exact ((c1_failure_message_dfs specFailedCase "MyTestSuite.MyTestGroup"
      (by decide)).1).trans (by decide)
  · exact ((c1_failure_message_dfs specFailedCase "MyTestSuite.MyTestGroup"
      (by decide)).2 (by decide)).trans (by decide)

/-- C2: for every input, the suites of the produced report appear in
non-decreasing byte-wise order of their `name` attribute, and within every
suite the cases appear in non-decreasing byte-wise order of their `name`
attribute (the XML serializer emits elements in list order). -/
theorem c2_output_sorted (ts : String) (roots : NodeList) :
    List.Sorted suiteLe (convertTree ts roots) ∧
    ∀ s ∈ convertTree ts roots, List.Sorted caseLe s.testCases := by
  constructor
  · simp only [convertTree, assembleReport]
    split
    · exact List.sorted_singleton _
    · exact sortTestSuites_sorted _
  · intro s hs
    simp only [convertTree, assembleReport] at hs
    split at hs
    · simp only [List.mem_singleton] at hs
      subst hs
      exact List.sorted_nil
    · exact sortTestSuites_cases_sorted hs

unseal Rat.add in
theorem c2_output_sorted_witness :
    List.Sorted suiteLe (convertTree "T" sampleRoots) ∧
    List.Sorted caseLe ((convertTree "T" sampleRoots).headD (defaultSuite "T")).testCases :=
  ⟨(c2_output_sorted "T" sampleRoots).1,
   (c2_output_sorted "T" sampleRoots).2 _ (by decide)⟩

/-- C3: an input tree with zero eligible test-case nodes yields exactly one
suite, named `"XCTest"`, with zero tests, failures, errors and time. -/
theorem c3_default_suite (ts : String) (roots : NodeList)
    (h : hasEligibleCases roots = false) :
    convertTree ts roots =
      [{ name := "XCTest", tests := 0, failures := 0, errors := 0, time := 0,
         timestamp := ts, testCases := [] }] := by
  unfold convertTree
  rw [processTestNodes_no_eligible ts roots "" [] h]
  rfl

theorem c3_default_suite_witness :
    hasEligibleCases c3Roots = false ∧ configCase.result = "Failed" ∧
    convertTree "T" c3Roots =
      [{ name := "XCTest", tests := 0, failures := 0, errors := 0, time := 0,
         timestamp := "T", testCases := [] }] :=
  ⟨by decide, by decide, c3_default_suite "T" c3Roots (by decide)⟩

/-- C4: a test-case node whose hierarchical identifier contains no `/`
separator is skipped entirely: it creates no suite, no case and increments no
counter (the suite map is returned unchanged), whatever the node's outcome. -/
theorem c4_no_separator_skip (ts : String) (node : TestNode) (cn : String) (m : SuiteMap)
    (h : containsSlash node.nodeIdentifier = false) :
    processTestCase ts node cn m = m :=
  processTestCase_skip h ts cn m

theorem c4_no_separator_skip_witness :
    containsSlash configCase.nodeIdentifier = false ∧ configCase.result = "Failed" ∧
    processTestCase "T" configCase "CN" [] = [] :=
  ⟨by decide, by decide, c4_no_separator_skip "T" configCase "CN" [] (by decide)⟩

/-- C5: an eligible test case is filed under the suite named by the first
`/`-separated segment of its identifier (`"UnknownSuite"` when that segment
is empty), and suites are keyed by this name alone: the map's key set gains
the derived name exactly when it is new, and two eligible cases whose
identifiers share the first segment land in one single suite whatever their
(ancestor-derived) classnames are. -/
theorem c5_suite_keying (ts : String) :
    (∀ (node : TestNode) (cn : String) (m : SuiteMap),
       containsSlash node.nodeIdentifier = true →
       (processTestCase ts node cn m).map JUnitTestSuite.name =
         (if suiteNameOf node.nodeIdentifier ∈ m.map JUnitTestSuite.name
          then m.map JUnitTestSuite.name
          else m.map JUnitTestSuite.name ++ [suiteNameOf node.nodeIdentifier])) ∧
    (∀ (n₁ n₂ : TestNode) (cn₁ cn₂ : String),
       containsSlash n₁.nodeIdentifier = true → containsSlash n₂.nodeIdentifier = true →
       suiteNameOf n₁.nodeIdentifier = suiteNameOf n₂.nodeIdentifier →
       processTestCase ts n₂ cn₂ (processTestCase ts n₁ cn₁ []) =
         [appendCase
            (appendCase (newSuite (suiteNameOf n₁.nodeIdentifier) ts) (makeTestCase n₁ cn₁)
              (n₁.result = "Failed"))
            (makeTestCase n₂ cn₂) (n₂.result = "Failed")]) := by
  constructor
  · intro node cn m h
    rw [processTestCase_eligible h]
    exact updateSuiteMap_map_name ts _ _ _ m
  · intro n₁ n₂ cn₁ cn₂ h₁ h₂ hsame
    rw [processTestCase_eligible h₁, processTestCase_eligible h₂, ← hsame]
    simp [updateSuiteMap, appendCase, newSuite]

theorem c5_suite_keying_witness :
    containsSlash c5Node1.nodeIdentifier = true ∧
    containsSlash c5Node2.nodeIdentifier = true ∧
    suiteNameOf c5Node1.nodeIdentifier = suiteNameOf c5Node2.nodeIdentifier ∧
    (processTestCase "T" c5Node1 "ChainA" []).map JUnitTestSuite.name = ["SharedSuite"] ∧
    processTestCase "T" c5Node2 "ChainB" (processTestCase "T" c5Node1 "ChainA" []) =
      [appendCase
         (appendCase (newSuite "SharedSuite" "T") (makeTestCase c5Node1 "ChainA")
           (c5Node1.result = "Failed"))
         (makeTestCase c5Node2 "ChainB") (c5Node2.result = "Failed")] := by
  refine ⟨by decide, by decide, by decide, ?_, ?_⟩
  · exact ((c5_suite_keying "T").1 c5Node1 "ChainA" [] (by decide)).trans (by decide)
  · exact ((c5_suite_keying "T").2 c5Node1 c5Node2 "ChainA" "ChainB" (by decide) (by decide)
      (by decide)).trans (by decide)

/-- C6: a test case below a chain of recognized ancestor nodes receives as
classname the `"."`-joined display names of its container-kind ancestors
(test bundles and test suites) in root-to-leaf order with no leading
separator, while test-plan and test-plan-configuration ancestors contribute
nothing. -/
theorem c6_classname (ts : String) (anc : List TestNode) (leaf : TestNode) (m : SuiteMap)
    (hleaf : leaf.nodeType = "Test Case")
    (hanc : ∀ a ∈ anc, isContainerKind a.nodeType = true ∨ isTransparentKind a.nodeType = true) :
    processTestNodes ts (.cons (nestChain anc leaf) .nil) "" m =
      processTestCase ts leaf
        (specJoinDot
          (((anc.filter fun a => isContainerKind a.nodeType).map TestNode.name).dropWhile
            fun n => n = "")) m := by
  rw [processTestNodes_chain ts leaf hleaf anc "" m hanc, foldl_buildClassName_empty]

theorem c6_classname_witness :
    c6Leaf.nodeType = "Test Case" ∧
    specJoinDot
      (((c6Anc.filter fun a => isContainerKind a.nodeType).map TestNode.name).dropWhile
        fun n => n = "") = "MyTestSuite.MyTestGroup" ∧
    processTestNodes "T" (.cons (nestChain c6Anc c6Leaf) .nil) "" [] =
      processTestCase "T" c6Leaf "MyTestSuite.MyTestGroup" [] := by
  refine ⟨by decide, by decide, ?_⟩
  exact (c6_classname "T" c6Anc c6Leaf [] (by decide) (by decide)).trans (by decide)

/-- C7: duration parsing never fails: the trailing `"s"` unit is stripped and
the remainder parsed as a decimal number; `"0.5s"` yields `0.5`, while the
empty string and unparsable values such as `"abc"` yield `0` instead of an
error. -/
theorem c7_parse_duration (s : String) :
    parseDuration "0.5s" = mkRat 1 2 ∧ parseDuration "" = 0 ∧ parseDuration "abc" = 0 ∧
    (goParseFloat (trimSuffix s "s") = none → parseDuration s = 0) ∧
    ∀ q : ℚ, goParseFloat (trimSuffix s "s") = some q → parseDuration s = q := by
  refine ⟨by decide, by decide, by decide, ?_, ?_⟩
  · intro h
    simp only [parseDuration]
    split
    · rfl
    · rw [h]
      rfl
  · intro q h
    simp only [parseDuration]
    split
    · exfalso
      rename_i he
      rw [he] at h
      exact Option.noConfusion ((show goParseFloat "" = none from rfl) ▸ h)
    · rw [h]
      rfl

theorem c7_parse_duration_witness :
    goParseFloat (trimSuffix "abc" "s") = none ∧ parseDuration "abc" = 0 ∧
    goParseFloat (trimSuffix "0.5s" "s") = some (mkRat 1 2) ∧
    parseDuration "0.5s" = mkRat 1 2 := by
  refine ⟨by decide, ?_, by decide, ?_⟩
  · exact (c7_parse_duration "abc").2.2.2.1 (by decide)
  · exact (c7_parse_duration "0.5s").2.2.2.2 (mkRat 1 2) (by decide)

/-- C8: every suite of the produced report has `time` equal to the sum of its
cases' `time` values; in particular no suite-level duration of the input
enters the computation (the value is recomputed from the cases alone). -/
theorem c8_suite_time (ts : String) (roots : NodeList) (s : JUnitTestSuite)
    (hs : s ∈ convertTree ts roots) : s.time = totalSuiteTime s.testCases := by
  simp only [convertTree, assembleReport] at hs
  split at hs
  · simp only [List.mem_singleton] at hs
    subst hs
    rfl
  · unfold sortTestSuites at hs
    rcases List.mem_map.mp hs with ⟨x, hx, rfl⟩
    have hx2 : x ∈ (processTestNodes ts roots "" []).map finalizeSuite :=
      (List.mem_insertionSort suiteLe).mp hx
    rcases List.mem_map.mp hx2 with ⟨y, _, rfl⟩
    exact (totalSuiteTime_perm (List.perm_insertionSort caseLe y.testCases)).symm

unseal Rat.add in
theorem c8_suite_time_witness :
    ((convertTree "T" sampleRoots).headD (defaultSuite "T")) ∈ convertTree "T" sampleRoots ∧
    ((convertTree "T" sampleRoots).headD (defaultSuite "T")).time =
      totalSuiteTime ((convertTree "T" sampleRoots).headD (defaultSuite "T")).testCases :=
  ⟨by decide, c8_suite_time "T" sampleRoots _ (by decide)⟩

/-- C9: report assembly and serialization are deterministic functions of the
(unmodified) suite mapping: for any two enumeration orders of the same
key-unique mapping — in particular for two runs over the same mapping — the
serialized XML is byte-identical.  (The wall clock read for the default-suite
timestamp is the ambient parameter `ts`, identical across the two runs on the
unmodified mapping.) -/
theorem c9_assembly_deterministic (showQ : ℚ → String) (ts : String) (m₁ m₂ : SuiteMap)
    (hperm : m₁.Perm m₂)
    (hkeys : m₁.Pairwise fun a b => a.name ≠ b.name) :
    renderReport showQ (assembleReport ts m₁) = renderReport showQ (assembleReport ts m₂) := by
  suffices h : assembleReport ts m₁ = assembleReport ts m₂ by rw [h]
  have hperm' : (m₁.map finalizeSuite).Perm (m₂.map finalizeSuite) := hperm.map _
  have hp12 : (List.insertionSort suiteLe (m₁.map finalizeSuite)).Perm
      (List.insertionSort suiteLe (m₂.map finalizeSuite)) :=
    ((List.perm_insertionSort suiteLe _).trans hperm').trans
      (List.perm_insertionSort suiteLe _).symm
  have hs₁ := List.sorted_insertionSort suiteLe (m₁.map finalizeSuite)
  have hs₂ := List.sorted_insertionSort suiteLe (m₂.map finalizeSuite)
  have hk1 : (m₁.map finalizeSuite).Pairwise (fun a b => a.name ≠ b.name) :=
    List.Pairwise.map _ (fun a b hab => hab) hkeys
  have hk2 : (List.insertionSort suiteLe (m₁.map finalizeSuite)).Pairwise
      (fun a b => a.name ≠ b.name) :=
    ((List.perm_insertionSort suiteLe _).pairwise_iff fun hab => Ne.symm hab).mpr hk1
  have hk3 : (List.insertionSort suiteLe (m₂.map finalizeSuite)).Pairwise
      (fun a b => a.name ≠ b.name) :=
    (hp12.pairwise_iff fun hab => Ne.symm hab).mp hk2
  have hst₁ : List.Sorted suiteLtKey (List.insertionSort suiteLe (m₁.map finalizeSuite)) :=
    hs₁.and hk2
  have hst₂ : List.Sorted suiteLtKey (List.insertionSort suiteLe (m₂.map finalizeSuite)) :=
    hs₂.and hk3
  have heq : List.insertionSort suiteLe (m₁.map finalizeSuite) =
      List.insertionSort suiteLe (m₂.map finalizeSuite) :=
    List.eq_of_perm_of_sorted hp12 hst₁ hst₂
  simp only [assembleReport, sortTestSuites, heq]

theorem c9_assembly_deterministic_witness :
    c9SuiteA.name ≠ c9SuiteB.name ∧
    renderReport (fun _ => "0") (assembleReport "T" [c9SuiteA, c9SuiteB]) =
      renderReport (fun _ => "0") (assembleReport "T" [c9SuiteB, c9SuiteA]) :=
  ⟨by decide,
   c9_assembly_deterministic (fun _ => "0") "T" [c9SuiteA, c9SuiteB] [c9SuiteB, c9SuiteA]
     (List.Perm.swap c9SuiteB c9SuiteA []) (by decide)⟩

/-- C10: no test case of any produced report carries a skipped marker — the
output model's optional `<skipped>` element is never populated — and a case
whose result is anything other than `"Failed"` (including `"Skipped"`) is
recorded as a plain passing case with neither failure nor skipped element. -/
theorem c10_no_skipped :
    (∀ (ts : String) (roots : NodeList), ∀ s ∈ convertTree ts roots,
       ∀ tc ∈ s.testCases, tc.skipped = none) ∧
    (∀ (node : TestNode) (cn : String), node.result ≠ "Failed" →
       makeTestCase node cn =
         { name := node.name, classname := cn, time := parseDuration node.duration,
           failure := none, skipped := none }) := by
  constructor
  · intro ts roots s hs tc htc
    have hinv : NoSkipped (processTestNodes ts roots "" []) :=
      processTestNodes_noSkipped ts roots "" [] (by intro x hx; simp at hx)
    simp only [convertTree, assembleReport] at hs
    split at hs
    · simp only [List.mem_singleton] at hs
      subst hs
      simp [defaultSuite] at htc
    · unfold sortTestSuites at hs
      rcases List.mem_map.mp hs with ⟨x, hx, rfl⟩
      have hx2 : x ∈ (processTestNodes ts roots "" []).map finalizeSuite :=
        (List.mem_insertionSort suiteLe).mp hx
      rcases List.mem_map.mp hx2 with ⟨y, hy, rfl⟩
      have htc2 : tc ∈ (finalizeSuite y).testCases :=
        (List.mem_insertionSort caseLe).mp htc
      exact hinv y hy tc htc2
  · intro node cn h
    unfold makeTestCase
    rw [if_neg h]

unseal Rat.add in
theorem c10_no_skipped_witness :
    samplePassCase.result = "Passed" ∧
    (((convertTree "T" sampleRoots).headD (defaultSuite "T")).testCases.headD
        { name := "", classname := "", time := 0, failure := none, skipped := none }).skipped =
      none ∧
    makeTestCase samplePassCase "MyBundle" =
      { name := "testB", classname := "MyBundle", time := parseDuration "0.25s",
        failure := none, skipped := none } := by
  refine ⟨by decide, ?_, ?_⟩
  · exact c10_no_skipped.1 "T" sampleRoots
      ((convertTree "T" sampleRoots).headD (defaultSuite "T")) (by decide)
      (((convertTree "T" sampleRoots).headD (defaultSuite "T")).testCases.headD
        { name := "", classname := "", time := 0, failure := none, skipped := none })
      (by decide)
  · exact (c10_no_skipped.2 samplePassCase "MyBundle" (by decide)).trans (by decide)
